/-
Verification of the webarc-playwright archive service (src/archiveService.js)
against its natural-language specification.

The development shallowly embeds the archival pipeline: URL normalization
(normalizeUrl, lines 30-51), the size guard (lines 111-114), the
content-type dispatch chain (lines 119-197), the per-request session
(lines 105-200) and the HTTP handler (lines 88-207).  External
collaborators that are not part of the repository (the WHATWG URL parser,
the p-limit concurrency gate, the SHA-1 digest) are modelled from the
specification, as marked in their doc comments.
-/
import Mathlib

set_option linter.unusedVariables false

namespace Webarc

/-! ### List-of-characters utilities

The JavaScript string operations used by the source (`String.prototype.includes`,
`String.prototype.startsWith`, `String.prototype.split`, and the splitting done
by the WHATWG URL parser) are modelled on `List Char`. -/

/-- Split a character list at the first occurrence of `c`: returns the part
before and the part after, or `none` when `c` does not occur. -/
def splitAtFirst (c : Char) : List Char → Option (List Char × List Char)
  | [] => none
  | x :: xs =>
    if x = c then some ([], xs)
    else
      match splitAtFirst c xs with
      | none => none
      | some (l, r) => some (x :: l, r)

/-- Split at the first occurrence of `c`, keeping the whole list (with `none`
for the right part) when `c` does not occur. -/
def splitOpt (c : Char) (s : List Char) : List Char × Option (List Char) :=
  match splitAtFirst c s with
  | none => (s, none)
  | some (l, r) => (l, some r)

/-- Split a character list on every occurrence of `c` (the model of
JavaScript `String.prototype.split`). -/
def splitAllOn (c : Char) : List Char → List (List Char)
  | [] => [[]]
  | x :: xs =>
    match splitAllOn c xs with
    | [] => [[x]]
    | p :: ps => if x = c then [] :: p :: ps else (x :: p) :: ps

theorem splitAtFirst_of_not_mem {c : Char} {l : List Char} (h : c ∉ l) :
    splitAtFirst c l = none := by
  induction l with
  | nil => rfl
  | cons x xs ih =>
    simp only [List.mem_cons, not_or] at h
    have hxc : ¬x = c := fun he => h.1 he.symm
    simp only [splitAtFirst, if_neg hxc, ih h.2]

theorem splitAtFirst_append {c : Char} {l r : List Char} (h : c ∉ l) :
    splitAtFirst c (l ++ c :: r) = some (l, r) := by
  induction l with
  | nil => simp [splitAtFirst]
  | cons x xs ih =>
    simp only [List.mem_cons, not_or] at h
    have hxc : ¬x = c := fun he => h.1 he.symm
    simp only [List.cons_append, splitAtFirst, if_neg hxc, List.append_eq, ih h.2]

theorem splitAtFirst_sound {c : Char} {s l r : List Char}
    (h : splitAtFirst c s = some (l, r)) : s = l ++ c :: r ∧ c ∉ l := by
  induction s generalizing l r with
  | nil => simp [splitAtFirst] at h
  | cons x xs ih =>
    simp only [splitAtFirst] at h
    by_cases hx : x = c
    · rw [if_pos hx] at h
      have h1 : ([] : List Char) = l ∧ xs = r := by simpa using h
      obtain ⟨rfl, rfl⟩ := h1
      simp [hx]
    · rw [if_neg hx] at h
      cases hsp : splitAtFirst c xs with
      | none => rw [hsp] at h; exact absurd h (by simp)
      | some p =>
        obtain ⟨l', r'⟩ := p
        rw [hsp] at h
        have h1 : x :: l' = l ∧ r' = r := by simpa using h
        obtain ⟨rfl, rfl⟩ := h1
        obtain ⟨hs, hm⟩ := ih hsp
        refine ⟨by simp [hs], ?_⟩
        simp only [List.mem_cons, not_or]
        exact ⟨fun he => hx he.symm, hm⟩

theorem splitAtFirst_none_not_mem {c : Char} {s : List Char}
    (h : splitAtFirst c s = none) : c ∉ s := by
  induction s with
  | nil => simp
  | cons x xs ih =>
    simp only [splitAtFirst] at h
    by_cases hx : x = c
    · rw [if_pos hx] at h; exact absurd h (by simp)
    · rw [if_neg hx] at h
      cases hsp : splitAtFirst c xs with
      | none =>
        simp only [List.mem_cons, not_or]
        exact ⟨fun he => hx he.symm, ih hsp⟩
      | some p => rw [hsp] at h; exact absurd h (by simp)

theorem splitOpt_of_not_mem {c : Char} {s : List Char} (h : c ∉ s) :
    splitOpt c s = (s, none) := by
  simp [splitOpt, splitAtFirst_of_not_mem h]

theorem splitOpt_append {c : Char} {l r : List Char} (h : c ∉ l) :
    splitOpt c (l ++ c :: r) = (l, some r) := by
  simp [splitOpt, splitAtFirst_append h]

theorem splitOpt_fst_not_mem (c : Char) (s : List Char) :
    c ∉ (splitOpt c s).1 := by
  unfold splitOpt
  cases hsp : splitAtFirst c s with
  | none => simpa using splitAtFirst_none_not_mem hsp
  | some p =>
    obtain ⟨l, r⟩ := p
    simpa using (splitAtFirst_sound hsp).2

theorem splitOpt_fst_subset {c : Char} {s : List Char} :
    ∀ x ∈ (splitOpt c s).1, x ∈ s := by
  intro x hx
  unfold splitOpt at hx
  cases hsp : splitAtFirst c s with
  | none => rw [hsp] at hx; exact hx
  | some p =>
    obtain ⟨l, r⟩ := p
    rw [hsp] at hx
    obtain ⟨hs, _⟩ := splitAtFirst_sound hsp
    rw [hs]
    simp only at hx
    exact List.mem_append_left _ hx

theorem splitOpt_snd_subset {c : Char} {s r : List Char}
    (h : (splitOpt c s).2 = some r) : ∀ x ∈ r, x ∈ s := by
  intro x hx
  unfold splitOpt at h
  cases hsp : splitAtFirst c s with
  | none => rw [hsp] at h; exact absurd h (by simp)
  | some p =>
    obtain ⟨l, r'⟩ := p
    rw [hsp] at h
    obtain ⟨hs, _⟩ := splitAtFirst_sound hsp
    simp only [Option.some.injEq] at h
    subst h
    rw [hs]
    exact List.mem_append_right _ (List.mem_cons_of_mem _ hx)

theorem splitAllOn_ne_nil (c : Char) (s : List Char) : splitAllOn c s ≠ [] := by
  cases s with
  | nil => simp [splitAllOn]
  | cons x xs =>
    simp only [splitAllOn]
    cases splitAllOn c xs with
    | nil => simp
    | cons p ps =>
      by_cases hx : x = c
      · simp [hx]
      · simp [hx]

theorem splitAllOn_of_not_mem {c : Char} {l : List Char} (h : c ∉ l) :
    splitAllOn c l = [l] := by
  induction l with
  | nil => rfl
  | cons x xs ih =>
    simp only [List.mem_cons, not_or] at h
    have hxc : ¬x = c := fun he => h.1 he.symm
    simp only [splitAllOn, ih h.2]
    simp [hxc]

theorem splitAllOn_append {c : Char} {l r : List Char} (h : c ∉ l) :
    splitAllOn c (l ++ c :: r) = l :: splitAllOn c r := by
  induction l with
  | nil =>
    simp only [List.nil_append, splitAllOn]
    cases hsp : splitAllOn c r with
    | nil => exact absurd hsp (splitAllOn_ne_nil c r)
    | cons p ps => simp
  | cons x xs ih =>
    simp only [List.mem_cons, not_or] at h
    have hxc : ¬x = c := fun he => h.1 he.symm
    simp only [List.cons_append, splitAllOn, List.append_eq, ih h.2]
    simp [hxc]

theorem splitAllOn_no_sep {c : Char} {s : List Char} :
    ∀ p ∈ splitAllOn c s, c ∉ p := by
  induction s with
  | nil => intro p hp; simp [splitAllOn] at hp; simp [hp]
  | cons x xs ih =>
    intro p hp
    cases hsp : splitAllOn c xs with
    | nil => exact absurd hsp (splitAllOn_ne_nil c xs)
    | cons q qs =>
      by_cases hx : x = c
      · simp only [splitAllOn, hsp, if_pos hx] at hp
        rcases List.mem_cons.mp hp with hp | hp
        · simp [hp]
        · exact ih p (hsp ▸ hp)
      · simp only [splitAllOn, hsp, if_neg hx] at hp
        rcases List.mem_cons.mp hp with hp | hp
        · subst hp
          have hq : c ∉ q := ih q (hsp ▸ List.mem_cons_self q qs)
          simp only [List.mem_cons, not_or]
          exact ⟨fun he => hx he.symm, hq⟩
        · exact ih p (hsp ▸ List.mem_cons_of_mem q hp)

theorem splitAllOn_subset {c : Char} {s : List Char} :
    ∀ p ∈ splitAllOn c s, ∀ x ∈ p, x ∈ s := by
  induction s with
  | nil => intro p hp; simp [splitAllOn] at hp; simp [hp]
  | cons y xs ih =>
    intro p hp x hx
    cases hsp : splitAllOn c xs with
    | nil => exact absurd hsp (splitAllOn_ne_nil c xs)
    | cons q qs =>
      by_cases hy : y = c
      · simp only [splitAllOn, hsp, if_pos hy] at hp
        rcases List.mem_cons.mp hp with hp | hp
        · subst hp; simp at hx
        · exact List.mem_cons_of_mem _ (ih p (hsp ▸ hp) x hx)
      · simp only [splitAllOn, hsp, if_neg hy] at hp
        rcases List.mem_cons.mp hp with hp | hp
        · subst hp
          rcases List.mem_cons.mp hx with hx | hx
          · simp [hx]
          · exact List.mem_cons_of_mem _
              (ih q (hsp ▸ List.mem_cons_self q qs) x hx)
        · exact List.mem_cons_of_mem _
            (ih p (hsp ▸ List.mem_cons_of_mem q hp) x hx)

/-! ### URL model

`normalizeUrl` (src/archiveService.js lines 30-51) delegates parsing and
serialization to the platform's WHATWG `URL` / `URLSearchParams` objects,
which are not part of the repository.  The structure and the two functions
below model them from the spec ("Attempts strict URL parse. On success,
removes a fixed denylist of query parameters ... and re-serializes. On
parse failure, returns the input unchanged"). -/

/-- Modelled from the spec: the record held by a parsed WHATWG `URL` object
(`new URL(inputUrl)` in `normalizeUrl`), restricted to the components the
spec mentions: scheme, host, path, the `searchParams` list, and fragment. -/
structure UrlRecord where
  scheme : List Char
  host : List Char
  path : List Char
  query : List (List Char × List Char)
  fragment : Option (List Char)
deriving DecidableEq

/-- Characters admitted in a scheme by the model parser. -/
def schemeCharOK (c : Char) : Bool := c.isAlpha

/-- Characters admitted in a host by the model parser: anything that is not
a URL delimiter. -/
def hostCharOK (c : Char) : Bool := !(c = ':' || c = '/' || c = '?' || c = '#')

/-- Modelled from the spec: parsing of a query string into the
`URLSearchParams` association list — pieces are separated by `&`, each piece
is split at its first `=` (a piece with no `=` has an empty value), and
empty pieces are skipped. -/
def parseQueryChars (qs : List Char) : List (List Char × List Char) :=
  (splitAllOn '&' qs).filterMap fun piece =>
    if piece = [] then none
    else
      match splitAtFirst '=' piece with
      | none => some (piece, [])
      | some kv => some kv

/-- Serialization of one query pair as `key=value`. -/
def serializePair (kv : List Char × List Char) : List Char :=
  kv.1 ++ '=' :: kv.2

/-- Serialization of the `URLSearchParams` list, pairs joined by `&`. -/
def serializeQuery : List (List Char × List Char) → List Char
  | [] => []
  | [kv] => serializePair kv
  | kv :: kvs => serializePair kv ++ '&' :: serializeQuery kvs

/-- From a parse of the part after `scheme://`, build the record: the
fragment is everything after the first `#`, the query everything between the
first `?` and the fragment, the host everything before the first `/`, and
the path the remainder. -/
def parseAfterScheme (scheme rest2 : List Char) : Option UrlRecord :=
  if (splitOpt '/' (splitOpt '?' (splitOpt '#' rest2).1).1).1 = [] ||
      !((splitOpt '/' (splitOpt '?' (splitOpt '#' rest2).1).1).1.all hostCharOK) then
    none
  else
    some
      { scheme := scheme
        host := (splitOpt '/' (splitOpt '?' (splitOpt '#' rest2).1).1).1
        path := ((splitOpt '/' (splitOpt '?' (splitOpt '#' rest2).1).1).2).getD []
        query :=
          match (splitOpt '?' (splitOpt '#' rest2).1).2 with
          | none => []
          | some qs => parseQueryChars qs
        fragment := (splitOpt '#' rest2).2 }

/-- Modelled from the spec: strict URL parsing as performed by
`new URL(inputUrl)`.  The input must be `scheme://host[/path][?query][#fragment]`
with a non-empty alphabetic scheme and a non-empty delimiter-free host;
anything else is a parse failure (`none`, standing for the thrown
`TypeError` that `normalizeUrl` catches). -/
def parseUrlChars (s : List Char) : Option UrlRecord :=
  match splitAtFirst ':' s with
  | none => none
  | some (scheme, rest1) =>
    if scheme = [] || !scheme.all schemeCharOK then none
    else if rest1.take 2 = ['/', '/'] then parseAfterScheme scheme (rest1.drop 2)
    else none

/-- The `?query` component of the serialization: empty `searchParams` render
no `?` at all (the WHATWG behaviour after `searchParams.delete` empties the
list). -/
def queryPart (r : UrlRecord) : List Char :=
  match r.query with
  | [] => []
  | _ => '?' :: serializeQuery r.query

/-- The `#fragment` component of the serialization. -/
def fragPart (r : UrlRecord) : List Char :=
  match r.fragment with
  | none => []
  | some f => '#' :: f

/-- Modelled from the spec: the serialization produced by `urlObj.toString()`.
The path is always rendered with its leading `/`. -/
def serializeUrlChars (r : UrlRecord) : List Char :=
  r.scheme ++ ':' :: '/' :: '/' :: r.host ++ '/' :: r.path ++ queryPart r ++ fragPart r

/-- Invariant on one query pair guaranteeing that serialization re-parses:
the key contains no `&`, `=` or `#`; the value contains no `&` or `#`. -/
def PairOK (kv : List Char × List Char) : Prop :=
  ('&' ∉ kv.1 ∧ '=' ∉ kv.1 ∧ '#' ∉ kv.1) ∧ ('&' ∉ kv.2 ∧ '#' ∉ kv.2)

/-- Well-formedness of a `UrlRecord`; every record produced by
`parseUrlChars` satisfies it, and it suffices for the serialization to
re-parse to the same record. -/
structure WFUrl (r : UrlRecord) : Prop where
  scheme_ne : r.scheme ≠ []
  scheme_ok : r.scheme.all schemeCharOK = true
  host_ne : r.host ≠ []
  host_ok : r.host.all hostCharOK = true
  path_ok : '?' ∉ r.path ∧ '#' ∉ r.path
  query_ok : ∀ kv ∈ r.query, PairOK kv

theorem schemeCharOK_ne_colon {c : Char} (h : schemeCharOK c = true) : c ≠ ':' := by
  intro he; subst he; exact absurd h (by decide)

theorem parseQueryChars_ok {qs : List Char} (hq : '#' ∉ qs) :
    ∀ kv ∈ parseQueryChars qs, PairOK kv := by
  intro kv hkv
  unfold parseQueryChars at hkv
  obtain ⟨piece, hpiece, hf⟩ := List.mem_filterMap.mp hkv
  have hamp : '&' ∉ piece := splitAllOn_no_sep piece hpiece
  have hsub : ∀ x ∈ piece, x ∈ qs := splitAllOn_subset piece hpiece
  have hhash : '#' ∉ piece := fun hx => hq (hsub _ hx)
  by_cases hemp : piece = []
  · simp [hemp] at hf
  · rw [if_neg hemp] at hf
    cases hsp : splitAtFirst '=' piece with
    | none =>
      rw [hsp] at hf
      simp only [Option.some.injEq] at hf
      subst hf
      have heq : '=' ∉ piece := splitAtFirst_none_not_mem hsp
      exact ⟨⟨hamp, heq, hhash⟩, by simp, by simp⟩
    | some p =>
      obtain ⟨k, v⟩ := p
      rw [hsp] at hf
      simp only [Option.some.injEq] at hf
      subst hf
      obtain ⟨hpe, hknm⟩ := splitAtFirst_sound hsp
      have hvsub : ∀ x ∈ v, x ∈ piece := by
        intro x hx; rw [hpe]
        exact List.mem_append_right _ (List.mem_cons_of_mem _ hx)
      have hksub : ∀ x ∈ k, x ∈ piece := by
        intro x hx; rw [hpe]
        exact List.mem_append_left _ hx
      exact ⟨⟨fun hx => hamp (hksub _ hx), hknm, fun hx => hhash (hksub _ hx)⟩,
        fun hx => hamp (hvsub _ hx), fun hx => hhash (hvsub _ hx)⟩

theorem not_mem_serializePair {c : Char} {kv : List Char × List Char}
    (hok : PairOK kv) (hck : c ∉ kv.1) (hcv : c ∉ kv.2) (hce : c ≠ '=') :
    c ∉ serializePair kv := by
  unfold serializePair
  simp only [List.mem_append, List.mem_cons, not_or]
  exact ⟨hck, hce, hcv⟩

theorem amp_not_mem_serializePair {kv : List Char × List Char} (hok : PairOK kv) :
    '&' ∉ serializePair kv :=
  not_mem_serializePair hok hok.1.1 hok.2.1 (by decide)

theorem hash_not_mem_serializeQuery {q : List (List Char × List Char)}
    (hok : ∀ kv ∈ q, PairOK kv) : '#' ∉ serializeQuery q := by
  induction q with
  | nil => simp [serializeQuery]
  | cons kv kvs ih =>
    have hkv := hok kv (List.mem_cons_self kv kvs)
    have hpair : '#' ∉ serializePair kv :=
      not_mem_serializePair hkv hkv.1.2.2 hkv.2.2 (by decide)
    cases kvs with
    | nil => simpa [serializeQuery] using hpair
    | cons kv' kvs' =>
      have ih' := ih fun x hx => hok x (List.mem_cons_of_mem _ hx)
      simp only [serializeQuery, List.mem_append, List.mem_cons, not_or]
      refine ⟨hpair, by decide, ?_⟩
      simpa [serializeQuery] using ih'

theorem parseQuery_roundtrip {q : List (List Char × List Char)}
    (hok : ∀ kv ∈ q, PairOK kv) (hne : q ≠ []) :
    parseQueryChars (serializeQuery q) = q := by
  induction q with
  | nil => exact absurd rfl hne
  | cons kv kvs ih =>
    obtain ⟨k, v⟩ := kv
    have hkv := hok (k, v) (List.mem_cons_self _ kvs)
    have hka : '&' ∉ k := hkv.1.1
    have hke : '=' ∉ k := hkv.1.2.1
    have hva : '&' ∉ v := hkv.2.1
    have hpamp : '&' ∉ serializePair (k, v) := amp_not_mem_serializePair hkv
    have hpne : serializePair (k, v) ≠ [] := by
      unfold serializePair
      intro hcon
      exact absurd (congrArg List.length hcon) (by simp)
    have hpk : splitAtFirst '=' (serializePair (k, v)) = some (k, v) :=
      splitAtFirst_append hke
    cases kvs with
    | nil =>
      unfold parseQueryChars
      rw [serializeQuery, splitAllOn_of_not_mem hpamp]
      simp [hpne, hpk]
    | cons kv' kvs' =>
      have hrest : serializeQuery ((k, v) :: kv' :: kvs') =
          serializePair (k, v) ++ '&' :: serializeQuery (kv' :: kvs') := rfl
      unfold parseQueryChars
      rw [hrest, splitAllOn_append hpamp]
      rw [List.filterMap_cons]
      have ih' := ih fun x hx => hok x (List.mem_cons_of_mem _ hx)
      have ih'' := ih' (by simp)
      unfold parseQueryChars at ih''
      simp [hpne, hpk, ih'']

theorem hostCharOK_spec {c : Char} (h : hostCharOK c = true) :
    c ≠ ':' ∧ c ≠ '/' ∧ c ≠ '?' ∧ c ≠ '#' := by
  unfold hostCharOK at h
  simp only [Bool.not_eq_true', Bool.or_eq_false_iff, decide_eq_false_iff_not] at h
  exact ⟨h.1.1.1, h.1.1.2, h.1.2, h.2⟩

theorem parseAfterScheme_wf {scheme rest2 : List Char} {r : UrlRecord}
    (hsch : ¬(scheme = [] || !scheme.all schemeCharOK) = true)
    (h : parseAfterScheme scheme rest2 = some r) : WFUrl r := by
  unfold parseAfterScheme at h
  split at h
  · cases h
  · rename_i hh
    simp only [Option.some.injEq] at h
    subst h
    simp only [Bool.or_eq_true, not_or, Bool.not_eq_true', Bool.not_eq_false,
      decide_eq_true_eq] at hh hsch
    have hnoq : '?' ∉ (splitOpt '?' (splitOpt '#' rest2).1).1 :=
      splitOpt_fst_not_mem '?' (splitOpt '#' rest2).1
    have hnoh : '#' ∉ (splitOpt '#' rest2).1 :=
      splitOpt_fst_not_mem '#' rest2
    refine ⟨hsch.1, hsch.2, hh.1, hh.2, ?_, ?_⟩
    · cases hpo : (splitOpt '/' (splitOpt '?' (splitOpt '#' rest2).1).1).2 with
      | none => simp [hpo]
      | some p =>
        have hps : ∀ x ∈ p, x ∈ (splitOpt '?' (splitOpt '#' rest2).1).1 :=
          splitOpt_snd_subset hpo
        have hps' : ∀ x ∈ p, x ∈ (splitOpt '#' rest2).1 :=
          fun x hx => splitOpt_fst_subset _ (hps x hx)
        simp only [hpo, Option.getD_some]
        exact ⟨fun hx => hnoq (hps _ hx), fun hx => hnoh (hps' _ hx)⟩
    · cases hqo : (splitOpt '?' (splitOpt '#' rest2).1).2 with
      | none => simp [hqo]
      | some qs =>
        simp only [hqo]
        have hqs : ∀ x ∈ qs, x ∈ (splitOpt '#' rest2).1 :=
          splitOpt_snd_subset hqo
        exact parseQueryChars_ok fun hx => hnoh (hqs _ hx)

theorem parseUrlChars_wf {s : List Char} {r : UrlRecord}
    (h : parseUrlChars s = some r) : WFUrl r := by
  unfold parseUrlChars at h
  cases hsp : splitAtFirst ':' s with
  | none => rw [hsp] at h; cases h
  | some p =>
    obtain ⟨scheme, rest1⟩ := p
    rw [hsp] at h
    simp only at h
    by_cases h1 : (scheme = [] || !scheme.all schemeCharOK) = true
    · rw [if_pos h1] at h; cases h
    · rw [if_neg h1] at h
      by_cases h2 : rest1.take 2 = ['/', '/']
      · rw [if_pos h2] at h
        exact parseAfterScheme_wf h1 h
      · rw [if_neg h2] at h; cases h

theorem mem_fragPart_of_some {r : UrlRecord} {f : List Char} (hf : r.fragment = some f) :
    fragPart r = '#' :: f := by
  unfold fragPart; rw [hf]

theorem hash_not_mem_queryPart {r : UrlRecord} (h : WFUrl r) :
    '#' ∉ queryPart r := by
  unfold queryPart
  cases hq : r.query with
  | nil => simp
  | cons kv kvs =>
    have := hash_not_mem_serializeQuery (q := r.query) h.query_ok
    rw [hq] at this
    simp only [List.mem_cons, not_or]
    exact ⟨by decide, this⟩

theorem hash_not_mem_middle {r : UrlRecord} (h : WFUrl r) :
    '#' ∉ r.host ++ '/' :: r.path ++ queryPart r := by
  have hh : '#' ∉ r.host := fun hx =>
    (hostCharOK_spec (List.all_eq_true.mp h.host_ok _ hx)).2.2.2 rfl
  have hp : '#' ∉ r.path := h.path_ok.2
  have hqp := hash_not_mem_queryPart h
  simp only [List.mem_append, List.mem_cons, not_or]
  exact ⟨⟨hh, by decide, hp⟩, hqp⟩

theorem quest_not_mem_hostpath {r : UrlRecord} (h : WFUrl r) :
    '?' ∉ r.host ++ '/' :: r.path := by
  have hh : '?' ∉ r.host := fun hx =>
    (hostCharOK_spec (List.all_eq_true.mp h.host_ok _ hx)).2.2.1 rfl
  have hp : '?' ∉ r.path := h.path_ok.1
  simp only [List.mem_append, List.mem_cons, not_or]
  exact ⟨hh, by decide, hp⟩

theorem parseAfterScheme_roundtrip {r : UrlRecord} (h : WFUrl r) :
    parseAfterScheme r.scheme
      (r.host ++ '/' :: r.path ++ queryPart r ++ fragPart r) = some r := by
  have hX : r.host ++ '/' :: r.path ++ queryPart r ++ fragPart r =
      (r.host ++ '/' :: r.path ++ queryPart r) ++ fragPart r := by
    simp [List.append_assoc]
  have hsplit1 : splitOpt '#' (r.host ++ '/' :: r.path ++ queryPart r ++ fragPart r) =
      (r.host ++ '/' :: r.path ++ queryPart r, r.fragment) := by
    rw [hX]
    cases hf : r.fragment with
    | none =>
      rw [show fragPart r = [] from by unfold fragPart; rw [hf], List.append_nil]
      exact splitOpt_of_not_mem (hash_not_mem_middle h)
    | some f =>
      rw [mem_fragPart_of_some hf]
      exact splitOpt_append (hash_not_mem_middle h)
  have hsplit2 : splitOpt '?' (r.host ++ '/' :: r.path ++ queryPart r) =
      (r.host ++ '/' :: r.path,
        (match r.query with
         | [] => (none : Option (List Char))
         | _ => some (serializeQuery r.query))) := by
    cases hq : r.query with
    | nil =>
      rw [show queryPart r = [] from by unfold queryPart; rw [hq], List.append_nil]
      exact splitOpt_of_not_mem (quest_not_mem_hostpath h)
    | cons kv kvs =>
      have hqp : queryPart r = '?' :: serializeQuery (kv :: kvs) := by
        unfold queryPart; rw [hq]
      rw [hqp,
        show r.host ++ '/' :: r.path ++ '?' :: serializeQuery (kv :: kvs) =
          (r.host ++ '/' :: r.path) ++ '?' :: serializeQuery (kv :: kvs) from by
            simp [List.append_assoc]]
      exact splitOpt_append (quest_not_mem_hostpath h)
  have hslash : '/' ∉ r.host := fun hx =>
    (hostCharOK_spec (List.all_eq_true.mp h.host_ok _ hx)).2.1 rfl
  have hsplit3 : splitOpt '/' (r.host ++ '/' :: r.path) = (r.host, some r.path) :=
    splitOpt_append hslash
  have hQ :
      (match
        (match r.query with
         | [] => (none : Option (List Char))
         | _ => some (serializeQuery r.query)) with
       | none => []
       | some qs => parseQueryChars qs) = r.query := by
    cases hq : r.query with
    | nil => simp [hq]
    | cons kv kvs =>
      simp only [hq]
      exact parseQuery_roundtrip (fun x hx => h.query_ok x (hq ▸ hx)) (by simp)
  have hcond : ¬(r.host = [] || !r.host.all hostCharOK) = true := by
    simp [h.host_ne, h.host_ok]
  unfold parseAfterScheme
  simp only [hsplit1, hsplit2, hsplit3]
  rw [if_neg hcond]
  simp only [Option.getD_some, hQ]

theorem serialize_roundtrip {r : UrlRecord} (h : WFUrl r) :
    parseUrlChars (serializeUrlChars r) = some r := by
  have hcol : ':' ∉ r.scheme := fun hx =>
    schemeCharOK_ne_colon (List.all_eq_true.mp h.scheme_ok _ hx) rfl
  have hserial : serializeUrlChars r =
      r.scheme ++ ':' :: ('/' :: '/' ::
        (r.host ++ '/' :: r.path ++ queryPart r ++ fragPart r)) := by
    unfold serializeUrlChars
    simp [List.append_assoc]
  rw [hserial]
  unfold parseUrlChars
  simp only [splitAtFirst_append hcol]
  have h1 : ¬(r.scheme = [] || !r.scheme.all schemeCharOK) = true := by
    simp [h.scheme_ne, h.scheme_ok]
  rw [if_neg h1,
    if_pos (show (('/' :: '/' ::
      (r.host ++ '/' :: r.path ++ queryPart r ++ fragPart r)).take 2 = ['/', '/']) from rfl)]
  exact parseAfterScheme_roundtrip h

/-! ### normalizeUrl (src/archiveService.js lines 30-51) -/

/-- The fixed denylist of tracking query parameters removed by
`normalizeUrl` (src/archiveService.js lines 33-44, `paramsToRemove`). -/
def paramsToRemove : List (List Char) :=
  ["utm_source".data, "utm_medium".data, "utm_campaign".data, "utm_term".data,
   "utm_content".data, "gclid".data, "dclid".data, "fbclid".data,
   "msclkid".data, "yclid".data]

/-- The effect of `paramsToRemove.forEach(param => urlObj.searchParams.delete(param))`
(src/archiveService.js line 45): every query pair whose name is in the
denylist is removed, the rest keep their order and values. -/
def deleteParams (urlObj : UrlRecord) : UrlRecord :=
  { urlObj with query := urlObj.query.filter fun kv => !decide (kv.1 ∈ paramsToRemove) }

/-- The URL normalization function `normalizeUrl` of src/archiveService.js
lines 30-51: parse the input; on success delete the tracking parameters and
re-serialize; on parse failure (the catch branch) return the input unchanged. -/
def normalizeUrl (inputUrl : String) : String :=
  match parseUrlChars inputUrl.data with
  | none => inputUrl
  | some urlObj => String.mk (serializeUrlChars (deleteParams urlObj))

theorem deleteParams_wf {r : UrlRecord} (h : WFUrl r) : WFUrl (deleteParams r) := by
  refine ⟨h.scheme_ne, h.scheme_ok, h.host_ne, h.host_ok, h.path_ok, ?_⟩
  intro kv hkv
  exact h.query_ok kv (List.mem_of_mem_filter hkv)

theorem deleteParams_idem (r : UrlRecord) :
    deleteParams (deleteParams r) = deleteParams r := by
  unfold deleteParams
  have hff : ∀ (l : List (List Char × List Char)),
      (l.filter fun kv => !decide (kv.1 ∈ paramsToRemove)).filter
          (fun kv => !decide (kv.1 ∈ paramsToRemove)) =
        l.filter fun kv => !decide (kv.1 ∈ paramsToRemove) := by
    intro l
    induction l with
    | nil => rfl
    | cons x xs ih =>
      by_cases hx : x.1 ∈ paramsToRemove
      · simp [List.filter_cons, hx, ih]
      · simp [List.filter_cons, hx, ih]
  simp only [hff]

/-- C7: URL normalization is idempotent — for every input string `u`,
`normalizeUrl (normalizeUrl u) = normalizeUrl u`. -/
theorem normalizeUrl_idempotent (u : String) :
    normalizeUrl (normalizeUrl u) = normalizeUrl u := by
  unfold normalizeUrl
  cases hp : parseUrlChars u.data with
  | none => simp only [hp]
  | some urlObj =>
    simp only [hp]
    have hwf := deleteParams_wf (parseUrlChars_wf hp)
    have hrt : parseUrlChars (String.mk (serializeUrlChars (deleteParams urlObj))).data =
        some (deleteParams urlObj) := serialize_roundtrip hwf
    simp only [hrt, deleteParams_idem]

/-- C8: for every successfully parsed input URL, `normalizeUrl` removes
every query parameter whose name is in the fixed denylist and retains every
other query parameter in the re-serialized output. -/
theorem normalizeUrl_denylist (u : String) (urlObj : UrlRecord)
    (h : parseUrlChars u.data = some urlObj) :
    parseUrlChars (normalizeUrl u).data = some (deleteParams urlObj) ∧
    (∀ kv ∈ (deleteParams urlObj).query, kv.1 ∉ paramsToRemove) ∧
    (∀ kv ∈ urlObj.query, kv.1 ∉ paramsToRemove → kv ∈ (deleteParams urlObj).query) := by
  have hwf := deleteParams_wf (parseUrlChars_wf h)
  refine ⟨?_, ?_, ?_⟩
  · unfold normalizeUrl
    simp only [h]
    exact serialize_roundtrip hwf
  · intro kv hkv
    unfold deleteParams at hkv
    simp only [List.mem_filter, Bool.not_eq_true', decide_eq_false_iff_not] at hkv
    exact hkv.2
  · intro kv hkv hnm
    unfold deleteParams
    simp only [List.mem_filter]
    exact ⟨hkv, by simp [hnm]⟩

/-- The parse of `"https://ex.com/?utm_source=x&id=1"`, the spec's own
denylist example. -/
def uExample : UrlRecord :=
  { scheme := "https".data
    host := "ex.com".data
    path := []
    query := [("utm_source".data, "x".data), ("id".data, "1".data)]
    fragment := none }

/-- Witness for C8 at the spec's example input: the `utm_source` parameter
is gone, `id=1` is retained, and the normalized string re-parses. -/
theorem normalizeUrl_denylist_witness :
    parseUrlChars (normalizeUrl "https://ex.com/?utm_source=x&id=1").data =
      some (deleteParams uExample) ∧
    ("id".data, "1".data) ∈ (deleteParams uExample).query ∧
    ("utm_source".data, "x".data) ∉ (deleteParams uExample).query := by
  have h := normalizeUrl_denylist "https://ex.com/?utm_source=x&id=1" uExample (by decide)
  refine ⟨h.1, h.2.2 _ (by decide) (by decide), ?_⟩
  intro hmem
  exact (h.2.1 _ hmem) (by decide)

/-- C9: for every input string that fails strict URL parsing, `normalizeUrl`
returns the input string unchanged (the catch branch, lines 47-50); being a
total function it raises no error. -/
theorem normalizeUrl_parse_failure (u : String)
    (h : parseUrlChars u.data = none) : normalizeUrl u = u := by
  unfold normalizeUrl
  simp only [h]

/-- Witness for C9 at the concrete non-URL input `"not a url"`. -/
theorem normalizeUrl_parse_failure_witness :
    parseUrlChars ("not a url").data = none ∧
      normalizeUrl "not a url" = "not a url" :=
  ⟨by decide, normalizeUrl_parse_failure _ (by decide)⟩

/-! ### JavaScript string primitives used by the dispatch chain -/

/-- Boolean prefix test on character lists (the needle is the first
argument). -/
def isPrefixB : List Char → List Char → Bool
  | [], _ => true
  | _ :: _, [] => false
  | a :: as, b :: bs => a = b && isPrefixB as bs

/-- Contiguous-substring occurrence of `needle` in the second argument. -/
def inclAux (needle : List Char) : List Char → Bool
  | [] => needle.isEmpty
  | x :: t => isPrefixB needle (x :: t) || inclAux needle t

/-- Model of JavaScript `String.prototype.includes`: a case-sensitive
contiguous-substring test. -/
def strIncludes (s sub : String) : Bool := inclAux sub.data s.data

/-- Model of JavaScript `String.prototype.startsWith`: a case-sensitive
prefix test. -/
def strStartsWith (s pre : String) : Bool := isPrefixB pre.data s.data

/-! ### The content-type dispatch chain (src/archiveService.js lines 119-197) -/

/-- The keys of the `savedFiles` response object: `html`, `pdf`,
`screenshot` (HTML branch) and `file` (every raw-body branch). -/
inductive ArtifactKey where
  | html
  | pdf
  | screenshot
  | file
deriving DecidableEq

/-- The saver categories of the dispatch chain, in source order, plus the
fallback. -/
inductive SaverCat where
  | htmlCat
  | pdfCat
  | imageCat
  | videoCat
  | csvCat
  | excelCat
  | wordCat
  | zipCat
  | fallbackCat
deriving DecidableEq

/-- The image extension rule of lines 143-145: `jpg` when the content-type
contains `jpeg`, `gif` when it contains `gif`, else `png`. -/
def imageExt (contentType : String) : String :=
  if strIncludes contentType "jpeg" then "jpg"
  else if strIncludes contentType "gif" then "gif"
  else "png"

/-- The video extension rule of line 152: `contentType.split('/')[1] || 'mp4'`
— element 1 of the split array, with `mp4` when it is missing or empty
(JavaScript falsiness of the empty string). -/
def videoExt (contentType : String) : String :=
  match (splitAllOn '/' contentType.data).drop 1 with
  | [] => "mp4"
  | e :: _ => if e = [] then "mp4" else String.mk e

/-- The spreadsheet extension rule of lines 168-169. -/
def excelExt (contentType : String) : String :=
  if strIncludes contentType "openxmlformats-officedocument.spreadsheetml.sheet" then "xlsx"
  else "xls"

/-- The document extension rule of lines 179-180. -/
def wordExt (contentType : String) : String :=
  if strIncludes contentType "openxmlformats-officedocument.wordprocessingml.document" then "docx"
  else "doc"

/-- The content-type dispatch chain of lines 119-197, reduced to the
selected saver category: the same conditions, in the same order, with the
same (case-sensitive) `includes`/`startsWith` string tests. -/
def dispatchCategory (contentType : String) : SaverCat :=
  if strIncludes contentType "text/html" then .htmlCat
  else if strIncludes contentType "application/pdf" then .pdfCat
  else if strStartsWith contentType "image/" then .imageCat
  else if strStartsWith contentType "video/" then .videoCat
  else if strIncludes contentType "text/csv" then .csvCat
  else if strIncludes contentType "application/vnd.ms-excel" ||
      strIncludes contentType "application/vnd.openxmlformats-officedocument.spreadsheetml.sheet" then
    .excelCat
  else if strIncludes contentType "application/msword" ||
      strIncludes contentType "application/vnd.openxmlformats-officedocument.wordprocessingml.document" then
    .wordCat
  else if strIncludes contentType "application/zip" then .zipCat
  else .fallbackCat

/-- The artifacts (response-object key and file extension) produced by each
branch of the dispatch chain (lines 119-197). -/
def dispatchPlan (contentType : String) : List (ArtifactKey × String) :=
  if strIncludes contentType "text/html" then
    [(.html, "html"), (.pdf, "pdf"), (.screenshot, "png")]
  else if strIncludes contentType "application/pdf" then [(.file, "pdf")]
  else if strStartsWith contentType "image/" then [(.file, imageExt contentType)]
  else if strStartsWith contentType "video/" then [(.file, videoExt contentType)]
  else if strIncludes contentType "text/csv" then [(.file, "csv")]
  else if strIncludes contentType "application/vnd.ms-excel" ||
      strIncludes contentType "application/vnd.openxmlformats-officedocument.spreadsheetml.sheet" then
    [(.file, excelExt contentType)]
  else if strIncludes contentType "application/msword" ||
      strIncludes contentType "application/vnd.openxmlformats-officedocument.wordprocessingml.document" then
    [(.file, wordExt contentType)]
  else if strIncludes contentType "application/zip" then [(.file, "zip")]
  else [(.html, "html")]

/-- The fixed ordered category table of the spec's dispatch section, with
the code's actual matching predicates. -/
def categoryPatterns : List (SaverCat × (String → Bool)) :=
  [(.htmlCat, fun ct => strIncludes ct "text/html"),
   (.pdfCat, fun ct => strIncludes ct "application/pdf"),
   (.imageCat, fun ct => strStartsWith ct "image/"),
   (.videoCat, fun ct => strStartsWith ct "video/"),
   (.csvCat, fun ct => strIncludes ct "text/csv"),
   (.excelCat, fun ct => strIncludes ct "application/vnd.ms-excel" ||
      strIncludes ct "application/vnd.openxmlformats-officedocument.spreadsheetml.sheet"),
   (.wordCat, fun ct => strIncludes ct "application/msword" ||
      strIncludes ct "application/vnd.openxmlformats-officedocument.wordprocessingml.document"),
   (.zipCat, fun ct => strIncludes ct "application/zip")]

/-- First-matching-category-wins over the ordered table, defaulting to the
fallback saver. -/
def firstMatchCat (contentType : String) : SaverCat :=
  match categoryPatterns.find? fun p => p.2 contentType with
  | none => .fallbackCat
  | some p => p.1

/-- C3 counterexample: `"TEXT/HTML"` differs from the `text/html` category
only in letter case, yet it selects a different saver category than
`"text/html"` (the fallback instead of the HTML saver), so the dispatch
match is not case-insensitive. -/
theorem dispatch_case_cex :
    dispatchCategory "TEXT/HTML" ≠ dispatchCategory "text/html" ∧
    dispatchCategory "TEXT/HTML" = SaverCat.fallbackCat ∧
    dispatchCategory "text/html" = SaverCat.htmlCat := by decide

/-- C3 (amended): the Format Dispatcher selects the saver category by
CASE-SENSITIVE substring (or prefix) match of the content-type header
against the fixed ordered category table, first matching category wins; a
content-type differing from a category only in letter case does not match
that category. -/
theorem dispatch_first_match (contentType : String) :
    dispatchCategory contentType = firstMatchCat contentType := by
  unfold dispatchCategory firstMatchCat categoryPatterns
  by_cases h1 : strIncludes contentType "text/html" = true
  · simp [h1]
  · by_cases h2 : strIncludes contentType "application/pdf" = true
    · simp [h1, h2]
    · by_cases h3 : strStartsWith contentType "image/" = true
      · simp [h1, h2, h3]
      · by_cases h4 : strStartsWith contentType "video/" = true
        · simp [h1, h2, h3, h4]
        · by_cases h5 : strIncludes contentType "text/csv" = true
          · simp [h1, h2, h3, h4, h5]
          · by_cases h6 : (strIncludes contentType "application/vnd.ms-excel" ||
                strIncludes contentType
                  "application/vnd.openxmlformats-officedocument.spreadsheetml.sheet") = true
            · simp [h1, h2, h3, h4, h5, h6]
            · by_cases h7 : (strIncludes contentType "application/msword" ||
                  strIncludes contentType
                    "application/vnd.openxmlformats-officedocument.wordprocessingml.document") = true
              · simp [h1, h2, h3, h4, h5, h6, h7]
              · by_cases h8 : strIncludes contentType "application/zip" = true
                · simp [h1, h2, h3, h4, h5, h6, h7, h8]
                · simp [h1, h2, h3, h4, h5, h6, h7, h8]

/-- C5: the dispatch outcomes follow the fixed table with
first-matching-category-wins — every content-type containing `text/html`
yields exactly the three artifacts `.html`, `.pdf`, `.png`; `image/jpeg`
yields exactly one `.jpg` artifact; and a content-type matching none of the
categories yields exactly one fallback `.html` artifact. -/
theorem dispatchPlan_table :
    (∀ ct : String, strIncludes ct "text/html" = true →
      dispatchPlan ct = [(.html, "html"), (.pdf, "pdf"), (.screenshot, "png")]) ∧
    dispatchPlan "image/jpeg" = [(.file, "jpg")] ∧
    (∀ ct : String, (categoryPatterns.all fun p => !(p.2 ct)) = true →
      dispatchPlan ct = [(.html, "html")]) := by
  refine ⟨?_, by decide, ?_⟩
  · intro ct h
    unfold dispatchPlan
    rw [if_pos h]
  · intro ct h
    simp only [categoryPatterns, List.all_cons, List.all_nil, Bool.and_eq_true,
      Bool.not_eq_true'] at h
    obtain ⟨h1, h2, h3, h4, h5, h6, h7, h8, -⟩ := h
    unfold dispatchPlan
    simp [h1, h2, h3, h4, h5, h6, h7, h8]

/-- Witness for C5 at the spec's concrete content-types. -/
theorem dispatchPlan_table_witness :
    dispatchPlan "text/html; charset=utf-8" =
      [(.html, "html"), (.pdf, "pdf"), (.screenshot, "png")] ∧
    dispatchPlan "application/octet-stream" = [(.html, "html")] :=
  ⟨dispatchPlan_table.1 "text/html; charset=utf-8" (by decide),
   dispatchPlan_table.2.2 "application/octet-stream" (by decide)⟩

/-! ### The size guard (src/archiveService.js lines 111-114) -/

/-- `FILE_SIZE_LIMIT` (line 14): 1 GiB in bytes. -/
def FILE_SIZE_LIMIT : Int := 1073741824

/-- Whitespace skipped by JavaScript `parseInt`. -/
def isSpaceJS (c : Char) : Bool :=
  c = ' ' || c = '\t' || c = '\n' || c = '\r'

/-- Decimal digit test. -/
def isDigitB (c : Char) : Bool := '0' ≤ c && c ≤ '9'

/-- Value of a list of decimal digits. -/
def digitsValue (l : List Char) : Nat :=
  l.foldl (fun a c => a * 10 + (c.toNat - 48)) 0

/-- The leading decimal digits of `l`, `none` when there are none. -/
def parseDigits (l : List Char) : Option Nat :=
  match l.takeWhile isDigitB with
  | [] => none
  | ds => some (digitsValue ds)

/-- Model of JavaScript `parseInt(s, 10)` (line 112): skip leading
whitespace, read an optional sign, then the leading run of decimal digits;
`none` models `NaN`. -/
def parseIntJS (s : String) : Option Int :=
  match s.data.dropWhile isSpaceJS with
  | '-' :: rest => (parseDigits rest).map fun n => -(n : Int)
  | '+' :: rest => (parseDigits rest).map fun n => (n : Int)
  | rest => (parseDigits rest).map fun n => (n : Int)

/-- The condition of line 112:
`contentLengthHeader && parseInt(contentLengthHeader, 10) > FILE_SIZE_LIMIT`.
An absent header (`undefined`) and an empty header string are falsy; a
`NaN` comparison is false. -/
def sizeGuardTriggers (contentLengthHeader : Option String) : Bool :=
  match contentLengthHeader with
  | none => false
  | some str =>
    !(str == "") &&
      (match parseIntJS str with
       | some n => decide (n > FILE_SIZE_LIMIT)
       | none => false)

/-! ### The per-request session (src/archiveService.js lines 105-200) -/

/-- The response metadata the code reads from Playwright's
`response.headers()` (lines 111 and 116). -/
structure MockResponse where
  contentType? : Option String
  contentLength? : Option String
deriving DecidableEq

/-- Oracle for the external effects of one archive session: for each
awaited browser or filesystem step of lines 106-199, `none` means the call
succeeds and `some msg` means it throws an error whose message is `msg`. -/
structure SessionEnv where
  gotoError : Option String
  response : MockResponse
  contentError : Option String
  pdfError : Option String
  screenshotError : Option String
  bodyError : Option String
  writeError : Option String
deriving DecidableEq

/-- The observable outcome of the callback passed to `limit` (lines
105-200): whether it returned or threw (with which message), whether the
page opened at line 106 is still open, the files written under the hash
directory, and the callback-local `savedFiles` object declared at
line 117. -/
structure SessionResult where
  outcome : Option String
  pageOpen : Bool
  written : List String
  savedFiles : List (ArtifactKey × String)
deriving DecidableEq

/-- The `text/html` branch (lines 119-134): `page.content()`, write the
`.html` file, `page.pdf` the `.pdf` file, `page.screenshot` the `.png`
file.  A throw at any step exits the callback with the page still open and
the files written so far on disk; only after the last step does line 199
close the page. -/
def saveHtmlPdfScreenshot (contentError writeError pdfError screenshotError : Option String)
    (hash baseUrl : String) : SessionResult :=
  match contentError with
  | some msg => ⟨some msg, true, [], []⟩
  | none =>
    match writeError with
    | some msg => ⟨some msg, true, [], []⟩
    | none =>
      match pdfError with
      | some msg => ⟨some msg, true, [hash ++ ".html"],
          [(ArtifactKey.html, baseUrl ++ "/" ++ hash ++ ".html")]⟩
      | none =>
        match screenshotError with
        | some msg => ⟨some msg, true, [hash ++ ".html", hash ++ ".pdf"],
            [(ArtifactKey.html, baseUrl ++ "/" ++ hash ++ ".html"),
             (ArtifactKey.pdf, baseUrl ++ "/" ++ hash ++ ".pdf")]⟩
        | none => ⟨none, false,
            [hash ++ ".html", hash ++ ".pdf", hash ++ ".png"],
            [(ArtifactKey.html, baseUrl ++ "/" ++ hash ++ ".html"),
             (ArtifactKey.pdf, baseUrl ++ "/" ++ hash ++ ".pdf"),
             (ArtifactKey.screenshot, baseUrl ++ "/" ++ hash ++ ".png")]⟩

/-- A raw-body branch (PDF/image/video/CSV/spreadsheet/document/ZIP,
lines 135-190): `response.body()` then one `fs.writeFileSync`, recording
`savedFiles.file`.  On success the page is closed at line 199. -/
def saveRawBody (bodyError writeError : Option String) (fileName url : String) : SessionResult :=
  match bodyError with
  | some msg => ⟨some msg, true, [], []⟩
  | none =>
    match writeError with
    | some msg => ⟨some msg, true, [], []⟩
    | none => ⟨none, false, [fileName], [(ArtifactKey.file, url)]⟩

/-- The fallback branch (lines 191-197): `page.content()` then one write of
the `.html` file, recording `savedFiles.html`. -/
def saveFallbackHtml (contentError writeError : Option String)
    (hash baseUrl : String) : SessionResult :=
  match contentError with
  | some msg => ⟨some msg, true, [], []⟩
  | none =>
    match writeError with
    | some msg => ⟨some msg, true, [], []⟩
    | none => ⟨none, false, [hash ++ ".html"],
        [(ArtifactKey.html, baseUrl ++ "/" ++ hash ++ ".html")]⟩

/-- The async callback passed to `limit` (lines 105-200): open a page
(line 106, always reached), navigate (line 108), size-guard (lines
111-114), read `content-type` with `|| ''` (line 116), dispatch on it
(lines 119-197) and close the page (line 199).  There is no try/finally
inside the callback, so every thrown-outcome literal has
`pageOpen := true`. -/
def sessionCallback (env : SessionEnv) (hash baseUrl : String) : SessionResult :=
  match env.gotoError with
  | some msg => ⟨some msg, true, [], []⟩
  | none =>
    if sizeGuardTriggers env.response.contentLength? then
      ⟨some "File size exceeds 1GB, not saving.", true, [], []⟩
    else
      if strIncludes (env.response.contentType?.getD "") "text/html" then
        saveHtmlPdfScreenshot env.contentError env.writeError env.pdfError
          env.screenshotError hash baseUrl
      else if strIncludes (env.response.contentType?.getD "") "application/pdf" then
        saveRawBody env.bodyError env.writeError (hash ++ ".pdf")
          (baseUrl ++ "/" ++ hash ++ ".pdf")
      else if strStartsWith (env.response.contentType?.getD "") "image/" then
        saveRawBody env.bodyError env.writeError
          (hash ++ "." ++ imageExt (env.response.contentType?.getD ""))
          (baseUrl ++ "/" ++ hash ++ "." ++ imageExt (env.response.contentType?.getD ""))
      else if strStartsWith (env.response.contentType?.getD "") "video/" then
        saveRawBody env.bodyError env.writeError
          (hash ++ "." ++ videoExt (env.response.contentType?.getD ""))
          (baseUrl ++ "/" ++ hash ++ "." ++ videoExt (env.response.contentType?.getD ""))
      else if strIncludes (env.response.contentType?.getD "") "text/csv" then
        saveRawBody env.bodyError env.writeError (hash ++ ".csv")
          (baseUrl ++ "/" ++ hash ++ ".csv")
      else if strIncludes (env.response.contentType?.getD "") "application/vnd.ms-excel" ||
          strIncludes (env.response.contentType?.getD "")
            "application/vnd.openxmlformats-officedocument.spreadsheetml.sheet" then
        saveRawBody env.bodyError env.writeError
          (hash ++ "." ++ excelExt (env.response.contentType?.getD ""))
          (baseUrl ++ "/" ++ hash ++ "." ++ excelExt (env.response.contentType?.getD ""))
      else if strIncludes (env.response.contentType?.getD "") "application/msword" ||
          strIncludes (env.response.contentType?.getD "")
            "application/vnd.openxmlformats-officedocument.wordprocessingml.document" then
        saveRawBody env.bodyError env.writeError
          (hash ++ "." ++ wordExt (env.response.contentType?.getD ""))
          (baseUrl ++ "/" ++ hash ++ "." ++ wordExt (env.response.contentType?.getD ""))
      else if strIncludes (env.response.contentType?.getD "") "application/zip" then
        saveRawBody env.bodyError env.writeError (hash ++ ".zip")
          (baseUrl ++ "/" ++ hash ++ ".zip")
      else
        saveFallbackHtml env.contentError env.writeError hash baseUrl

/-! ### The HTTP handler (src/archiveService.js lines 88-207) -/

/-- A JSON response body: either `{"error": msg}` or the `savedFiles`
object mapping artifact kinds to public URLs. -/
inductive ResponseBody where
  | errorObj : String → ResponseBody
  | filesObj : List (ArtifactKey × String) → ResponseBody
deriving DecidableEq

/-- An HTTP status code with its JSON body. -/
structure HttpResult where
  status : Nat
  body : ResponseBody
deriving DecidableEq

/-- Hexadecimal rendering of `n` with `k` lowercase digits, most
significant first. -/
def toHexFixed : Nat → Nat → List Char
  | 0, _ => []
  | k + 1, n => toHexFixed k (n / 16) ++ [Nat.digitChar (n % 16)]

/-- Modelled from the spec: the Content Addressor
(`crypto.createHash('sha1').update(normalizedUrl).digest('hex')`, line 97).
The SHA-1 digest is external to the repository; this model keeps the
properties the spec states and the claims use — a pure deterministic
function of the normalized URL rendered as a fixed-length (160-bit, 40
digit) lowercase-hex string. -/
def sha1Model (s : String) : String :=
  String.mk (toHexFixed 40 (s.data.foldl (fun a c => (a * 131 + c.toNat) % 2 ^ 160) 7))

/-- The identifiers bound in the scope of the `/archive` handler: its
parameters `req` and `res`, the handler consts of lines 89-102
(`originalUrl`, `normalizedUrl`, `hash`, `archiveSubDir`, `baseUrl`) and
the module-level bindings.  `savedFiles` (line 117) is `let`-declared
inside the async closure passed to `limit` and is NOT among them. -/
def archiveHandlerScope : List String :=
  ["req", "res", "originalUrl", "normalizedUrl", "hash", "archiveSubDir", "baseUrl",
   "path", "express", "fs", "crypto", "chromium", "pLimit",
   "PORT", "ARCHIVE_DIR", "FILE_SIZE_LIMIT", "PARALLEL_LIMIT",
   "normalizeUrl", "app", "limit", "browser", "launchBrowser"]

/-- ES-module identifier resolution: reading a name that no surrounding
scope declares throws `ReferenceError: <name> is not defined`; `none`
stands for that throw. -/
def resolveIdentifier (scope : List String) (name : String) : Option Unit :=
  if name ∈ scope then some () else none

/-- The `/archive` request handler (lines 88-207).  `urlParam` is
`req.query.url` (`none` when absent); a missing or empty value is falsy
and yields the 400 response (lines 90-92).  Otherwise the URL is
normalized, hashed, and the session runs under the gate; a thrown session
error is caught at line 203 and mapped to 500.  When the session returns
normally, line 202 evaluates `res.json(savedFiles)`: the identifier
`savedFiles` is resolved against the handler scope, and the resulting
ReferenceError is caught by the same catch block. -/
def archiveHandler (proto hostHeader : String) (env : SessionEnv)
    (urlParam : Option String) : HttpResult :=
  match urlParam with
  | none => ⟨400, .errorObj "URL is required as a query parameter."⟩
  | some originalUrl =>
    if originalUrl = "" then ⟨400, .errorObj "URL is required as a query parameter."⟩
    else
      match (sessionCallback env (sha1Model (normalizeUrl originalUrl))
          (proto ++ "://" ++ hostHeader ++ "/files/" ++
            sha1Model (normalizeUrl originalUrl))).outcome with
      | some msg => ⟨500, .errorObj msg⟩
      | none =>
        match resolveIdentifier archiveHandlerScope "savedFiles" with
        | some _ =>
          ⟨200, .filesObj (sessionCallback env (sha1Model (normalizeUrl originalUrl))
            (proto ++ "://" ++ hostHeader ++ "/files/" ++
              sha1Model (normalizeUrl originalUrl))).savedFiles⟩
        | none => ⟨500, .errorObj "savedFiles is not defined"⟩

/-! ### Claims about the session and handler -/

/-- A fully successful environment: a `text/html` response of modest
declared size with every external step succeeding. -/
def allOkHtmlEnv : SessionEnv :=
  { gotoError := none
    response := { contentType? := some "text/html; charset=utf-8", contentLength? := some "512" }
    contentError := none
    pdfError := none
    screenshotError := none
    bodyError := none
    writeError := none }

/-- C1: the claim says a fully successful archive request answers 200 with
the artifact map.  In the code, `savedFiles` (line 117) is `let`-scoped
inside the `limit` callback, so `res.json(savedFiles)` at line 202 throws
`ReferenceError: savedFiles is not defined`, caught at line 203: the
response is 500 even though the session returned normally and recorded all
three artifact kinds. -/
theorem archive_success_returns_500 :
    (sessionCallback allOkHtmlEnv "h" "b").outcome = none ∧
    (sessionCallback allOkHtmlEnv "h" "b").savedFiles.map Prod.fst =
      [ArtifactKey.html, ArtifactKey.pdf, ArtifactKey.screenshot] ∧
    archiveHandler "http" "localhost:3000" allOkHtmlEnv (some "https://example.com/") =
      ⟨500, ResponseBody.errorObj "savedFiles is not defined"⟩ := by decide

theorem saveRawBody_closed_iff (be we : Option String) (fileName url : String) :
    (saveRawBody be we fileName url).pageOpen = false ↔
      (saveRawBody be we fileName url).outcome = none := by
  unfold saveRawBody
  cases be <;> cases we <;> simp

theorem saveHtmlPdfScreenshot_closed_iff (ce we pe se : Option String)
    (hash baseUrl : String) :
    (saveHtmlPdfScreenshot ce we pe se hash baseUrl).pageOpen = false ↔
      (saveHtmlPdfScreenshot ce we pe se hash baseUrl).outcome = none := by
  unfold saveHtmlPdfScreenshot
  cases ce <;> cases we <;> cases pe <;> cases se <;> simp

theorem saveFallbackHtml_closed_iff (ce we : Option String) (hash baseUrl : String) :
    (saveFallbackHtml ce we hash baseUrl).pageOpen = false ↔
      (saveFallbackHtml ce we hash baseUrl).outcome = none := by
  unfold saveFallbackHtml
  cases ce <;> cases we <;> simp

/-- C2 (amended): the browser page opened at line 106 is closed exactly on
the success path — `page.close()` (line 199) runs when navigation, the size
check and every save step succeed, and the page is left open whenever any
of them throws (there is no try/finally in the callback). -/
theorem page_closed_iff_success (env : SessionEnv) (hash baseUrl : String) :
    (sessionCallback env hash baseUrl).pageOpen = false ↔
      (sessionCallback env hash baseUrl).outcome = none := by
  unfold sessionCallback
  cases env.gotoError with
  | some m => simp
  | none =>
    simp only
    split_ifs <;>
      simp [saveRawBody_closed_iff, saveHtmlPdfScreenshot_closed_iff,
        saveFallbackHtml_closed_iff]

/-- An environment where navigation itself throws (a DNS failure, say). -/
def gotoFailEnv : SessionEnv :=
  { gotoError := some "net::ERR_NAME_NOT_RESOLVED"
    response := { contentType? := none, contentLength? := none }
    contentError := none
    pdfError := none
    screenshotError := none
    bodyError := none
    writeError := none }

/-- C2 counterexample: a session whose navigation throws exits with the
page still open, refuting "closed on every exit path". -/
theorem page_leak_cex :
    (sessionCallback gotoFailEnv "h" "b").outcome ≠ none ∧
    (sessionCallback gotoFailEnv "h" "b").pageOpen = true := by decide

/-- C4: a response declaring a content-length that parses to an integer
strictly above 1073741824 makes the session throw the size-guard error
before any file is written, and the handler answer 500. -/
theorem size_guard_rejects (env : SessionEnv) (s : String) (n : Int)
    (hg : env.gotoError = none)
    (hcl : env.response.contentLength? = some s)
    (hn : parseIntJS s = some n) (hgt : n > 1073741824)
    (hash baseUrl proto hostHeader u : String) (hu : ¬u = "") :
    (sessionCallback env hash baseUrl).outcome =
      some "File size exceeds 1GB, not saving." ∧
    (sessionCallback env hash baseUrl).written = [] ∧
    (archiveHandler proto hostHeader env (some u)).status = 500 := by
  have hne : (s == "") = false := by
    cases hb : s == "" with
    | false => rfl
    | true =>
      have he : s = "" := by simpa using hb
      subst he
      have h2 : (none : Option Int) = some n := hn
      cases h2
  have hs : sizeGuardTriggers env.response.contentLength? = true := by
    rw [hcl]
    simp only [sizeGuardTriggers, hn, hne]
    simp only [Bool.not_false, Bool.true_and]
    exact decide_eq_true hgt
  have hsess : ∀ h' b' : String,
      sessionCallback env h' b' =
        ⟨some "File size exceeds 1GB, not saving.", true, [], []⟩ := by
    intro h' b'
    unfold sessionCallback
    rw [hg]
    simp [hs]
  refine ⟨by rw [hsess], by rw [hsess], ?_⟩
  simp only [archiveHandler]
  rw [if_neg hu, hsess]

/-- Witness environment for C4 and C10: navigation succeeds and every save
step would succeed. -/
def sizeEnv (cl : Option String) : SessionEnv :=
  { gotoError := none
    response := { contentType? := some "text/html", contentLength? := cl }
    contentError := none
    pdfError := none
    screenshotError := none
    bodyError := none
    writeError := none }

/-- Witness for C4 at the concrete declared length 2000000000 > 1 GiB. -/
theorem size_guard_rejects_witness :
    (sessionCallback (sizeEnv (some "2000000000")) "h" "b").outcome =
      some "File size exceeds 1GB, not saving." ∧
    (sessionCallback (sizeEnv (some "2000000000")) "h" "b").written = [] ∧
    (archiveHandler "http" "localhost:3000" (sizeEnv (some "2000000000"))
      (some "https://example.com/")).status = 500 :=
  size_guard_rejects (sizeEnv (some "2000000000")) "2000000000" 2000000000
    rfl rfl (by decide) (by decide) "h" "b" "http" "localhost:3000"
    "https://example.com/" (by decide)

/-- C10: a content-length header that does not parse to a number
(`parseInt` yields `NaN`) does not trigger the size guard: the session and
the handler behave exactly as when the header is absent. -/
theorem nan_content_length_ignored (env : SessionEnv) (s : String)
    (hn : parseIntJS s = none) :
    (∀ hash baseUrl : String,
      sessionCallback
          { env with response := { env.response with contentLength? := some s } }
          hash baseUrl =
        sessionCallback
          { env with response := { env.response with contentLength? := none } }
          hash baseUrl) ∧
    (∀ proto hostHeader : String, ∀ u : Option String,
      archiveHandler proto hostHeader
          { env with response := { env.response with contentLength? := some s } } u =
        archiveHandler proto hostHeader
          { env with response := { env.response with contentLength? := none } } u) := by
  have hguard : sizeGuardTriggers (some s) = false := by
    simp only [sizeGuardTriggers, hn]
    simp
  have hnone : sizeGuardTriggers none = false := rfl
  have hsess : ∀ hash baseUrl : String,
      sessionCallback
          { env with response := { env.response with contentLength? := some s } }
          hash baseUrl =
        sessionCallback
          { env with response := { env.response with contentLength? := none } }
          hash baseUrl := by
    intro hash baseUrl
    unfold sessionCallback
    cases env.gotoError <;> simp [hguard, hnone]
  refine ⟨hsess, ?_⟩
  intro proto hostHeader u
  cases u with
  | none => rfl
  | some uu =>
    simp only [archiveHandler, hsess]

/-- Witness for C10 at the concrete unparsable header value `"abc"`. -/
theorem nan_content_length_ignored_witness :
    sessionCallback
        { sizeEnv none with
            response := { (sizeEnv none).response with contentLength? := some "abc" } }
        "h" "b" =
      sessionCallback
        { sizeEnv none with
            response := { (sizeEnv none).response with contentLength? := none } }
        "h" "b" :=
  (nan_content_length_ignored (sizeEnv none) "abc" (by decide)).1 "h" "b"

/-! ### The Concurrency Gate (src/archiveService.js lines 72 and 105) -/

/-- `PARALLEL_LIMIT` (line 15): at most 5 pages processed concurrently. -/
def PARALLEL_LIMIT : Nat := 5

/-- Modelled from the spec: the state of the bounded-admission Concurrency
Gate (`pLimit(PARALLEL_LIMIT)`, line 72 — the p-limit package is external
to the repository): the identifiers of the sessions currently running and
the FIFO queue of waiting requests. -/
structure GateState where
  running : List Nat
  queued : List Nat
deriving DecidableEq

/-- Gate events: a request arrives (admitted immediately below capacity,
queued otherwise), or a running session finishes — `ok = false` when its
callback threw.  A finishing session releases its slot regardless of `ok`,
admitting the head of the queue. -/
inductive GateEvent where
  | arrive : Nat → GateEvent
  | finish : Nat → Bool → GateEvent
deriving DecidableEq

/-- Modelled from the spec: one transition of the Concurrency Gate. -/
def gateStep (s : GateState) : GateEvent → GateState
  | .arrive i =>
    if s.running.length < PARALLEL_LIMIT then ⟨s.running ++ [i], s.queued⟩
    else ⟨s.running, s.queued ++ [i]⟩
  | .finish i _ok =>
    if i ∈ s.running then
      match s.queued with
      | [] => ⟨s.running.erase i, []⟩
      | q :: qs => ⟨s.running.erase i ++ [q], qs⟩
    else s

/-- Run the gate from the idle state over a trace of events. -/
def gateRun (events : List GateEvent) : GateState :=
  events.foldl gateStep ⟨[], []⟩

theorem gateStep_bound {s : GateState} (h : s.running.length ≤ PARALLEL_LIMIT)
    (e : GateEvent) : (gateStep s e).running.length ≤ PARALLEL_LIMIT := by
  cases e with
  | arrive i =>
    unfold gateStep
    by_cases hlt : s.running.length < PARALLEL_LIMIT
    · simp only [hlt, if_pos]
      simp only [List.length_append, List.length_singleton]
      omega
    · simp only [hlt]
      simpa using h
  | finish i ok =>
    unfold gateStep
    by_cases hm : i ∈ s.running
    · simp only [hm, if_pos]
      have hlen := List.length_erase_of_mem hm
      have hpos := List.length_pos_of_mem hm
      cases hq : s.queued with
      | nil =>
        simp only
        omega
      | cons q qs =>
        simp only [List.length_append, List.length_singleton]
        omega
    · simp only [hm]
      simpa using h

theorem gateRun_bound_aux (events : List GateEvent) (s : GateState)
    (h : s.running.length ≤ PARALLEL_LIMIT) :
    (events.foldl gateStep s).running.length ≤ PARALLEL_LIMIT := by
  induction events generalizing s with
  | nil => exact h
  | cons e es ih => exact ih _ (gateStep_bound h e)

/-- C6: on every event trace from the idle state the Concurrency Gate runs
at most `PARALLEL_LIMIT = 5` sessions simultaneously, and a running session
that finishes by throwing releases its slot, admitting the head of the FIFO
queue. -/
theorem gate_bound_and_release :
    (∀ events : List GateEvent,
      (gateRun events).running.length ≤ PARALLEL_LIMIT) ∧
    (∀ (s : GateState) (i q : Nat) (qs : List Nat),
      i ∈ s.running → s.queued = q :: qs →
      q ∈ (gateStep s (.finish i false)).running ∧
        (gateStep s (.finish i false)).queued = qs) := by
  constructor
  · intro events
    exact gateRun_bound_aux events ⟨[], []⟩ (by simp [PARALLEL_LIMIT])
  · intro s i q qs hm hq
    simp [gateStep, hm, hq]

/-- Witness for C6: a trace of six arrivals (the sixth queues) stays within
the bound, and session 1 finishing with an error admits the queued
request 6 to run. -/
theorem gate_bound_and_release_witness :
    (gateRun [.arrive 1, .arrive 2, .arrive 3, .arrive 4, .arrive 5, .arrive 6,
        .finish 1 false]).running.length ≤ PARALLEL_LIMIT ∧
    (6 ∈ (gateStep ⟨[1, 2, 3, 4, 5], [6]⟩ (.finish 1 false)).running ∧
      (gateStep ⟨[1, 2, 3, 4, 5], [6]⟩ (.finish 1 false)).queued = []) :=
  ⟨gate_bound_and_release.1 _,
   gate_bound_and_release.2 ⟨[1, 2, 3, 4, 5], [6]⟩ 1 6 [] (by decide) rfl⟩

end Webarc
